import Mathlib

/-!
Verification of the economics NPV engine: a shallow embedding of the
financial core (`logic.py`: `calculate_lcm`, `generate_cash_flows`,
`calculate_npv`) and of the winner-selection logic of
`main.py` (`run_full_analysis`), together with theorems settling the
frozen specification claims.

Monetary amounts, modelled in the source as Python floats, are embedded
as exact rationals (ℚ); Python integers are embedded as `Int`
(or `Nat` where the claims restrict to non-negative values).
-/

namespace NpvClient

/-- Embeds `logic.calculate_lcm`.  Source:
`if not numbers: return 0`;
`integers = [int(n) for n in numbers if n > 0]`;
`if not integers: return 0`;
`return math.lcm(*integers)`.
`math.lcm` over a non-empty argument list is the iterated binary lcm,
here written as a left fold starting from 1 (the lcm identity). -/
def calculate_lcm (numbers : List Int) : Nat :=
  if numbers.isEmpty then 0
  else
    let integers := numbers.filter (fun n => 0 < n)
    if integers.isEmpty then 0
    else integers.foldl (fun acc n => Nat.lcm acc n.toNat) 1

/-- The value written into `flows[t]` for `1 ≤ t ≤ study_period` by the loop of
`logic.generate_cash_flows` (each cell of the zero-initialised array is
written independently of the others):
`flows[t] += net_annual`; then, `if t % life_span == 0`,
`flows[t] += salvage` and, `if t != study_period`, `flows[t] -= replacement`. -/
def cash_flow_at (net_annual salvage replacement : ℚ)
    (life_span : Int) (study_period t : Nat) : ℚ :=
  net_annual +
    (if (t : Int) % life_span = 0 then
      salvage + (if t ≠ study_period then -replacement else 0)
    else 0)

/-- Embeds `logic.generate_cash_flows`.  Source:
`if life_span <= 0: return np.zeros(study_period + 1)`;
`net_annual = revenue - cost + savings`;
`flows = np.zeros(study_period + 1)`; `flows[0] = -abs(investment)`;
then the loop `for t in range(1, study_period + 1)` fills the remaining
cells as in `cash_flow_at`. -/
def generate_cash_flows (investment revenue cost savings salvage replacement : ℚ)
    (life_span : Int) (study_period : Nat) : List ℚ :=
  if life_span ≤ 0 then List.replicate (study_period + 1) 0
  else
    let net_annual := revenue - cost + savings
    (List.range (study_period + 1)).map (fun t =>
      if t = 0 then -|investment|
      else cash_flow_at net_annual salvage replacement life_span study_period t)

/-- Embeds `logic.calculate_npv`.  Source:
`r = marr_percent / 100.0`;
`discount_factors = (1 + r) ** np.arange(len(flows))`;
`npv = np.sum(flows / discount_factors)` — the sum over all indices
`t = 0 .. len(flows) - 1` of `flows[t] / (1 + r)^t`. -/
def calculate_npv (flows : List ℚ) (marr_percent : ℚ) : ℚ :=
  let r := marr_percent / 100
  ∑ t ∈ Finset.range flows.length, flows.getD t 0 / (1 + r) ^ t

/-- A project record, as assembled by the input layer of `main.py`
(`new_project = {...}`): name plus the six monetary amounts and the
integer life span. -/
structure Project where
  name : String
  life_span : Int
  investment : ℚ
  replacement : ℚ
  revenue : ℚ
  salvage : ℚ
  cost : ℚ
  savings : ℚ
deriving Repr, DecidableEq

/-- One row of the results table built by `main.run_full_analysis`:
the project's display name paired with its computed NPV.  (The table also
echoes the life span; it plays no part in selection and is omitted.) -/
abbrev ResultRow := String × ℚ

/-- First-occurrence maximum over the NPV column, as computed by
`results_df['NPV'].idxmax()` followed by `results_df.loc[...]`:
the running best row is replaced only on a strict improvement, so the
earliest row attaining the maximum is kept. -/
def pick_max (best : ResultRow) : List ResultRow → ResultRow
  | [] => best
  | r :: rs => if best.2 < r.2 then pick_max r rs else pick_max best rs

/-- The winner computation of `main.run_full_analysis` (line
`winner = results_df.loc[results_df['NPV'].idxmax()] if not results_df.empty else None`). -/
def select_winner (results : List ResultRow) : Option ResultRow :=
  match results with
  | [] => none
  | r :: rs => some (pick_max r rs)

/-- Embeds `main.run_full_analysis` (its computational content; the
pandas framing and caching are glue).  Source: empty input returns the
sentinel; rows with `Life Span (Years) > 0` are kept; the study period is
the lcm of the kept life spans (sentinel if 0); each kept project is
evaluated by `generate_cash_flows` then `calculate_npv`; a blank name is
replaced by `"Unnamed Project"`; the winner is the first row of maximal
NPV.  Returns (study_period, results, winner). -/
def run_full_analysis (project_list : List Project) (marr : ℚ) :
    Nat × List ResultRow × Option ResultRow :=
  if project_list.isEmpty then (0, [], none)
  else
    let df := project_list.filter (fun p => 0 < p.life_span)
    if df.isEmpty then (0, [], none)
    else
      let study_period := calculate_lcm (df.map (fun p => p.life_span))
      if study_period = 0 then (0, [], none)
      else
        let results := df.map (fun p =>
          (if p.name = "" then "Unnamed Project" else p.name,
           calculate_npv
             (generate_cash_flows p.investment p.revenue p.cost p.savings
               p.salvage p.replacement p.life_span study_period) marr))
        (study_period, results, select_winner results)

/-! ### Basic lemmas about `generate_cash_flows` -/

lemma generate_cash_flows_length (investment revenue cost savings salvage replacement : ℚ)
    (life_span : Int) (study_period : Nat) :
    (generate_cash_flows investment revenue cost savings salvage replacement
      life_span study_period).length = study_period + 1 := by
  unfold generate_cash_flows
  split <;> simp

lemma generate_cash_flows_getD (investment revenue cost savings salvage replacement : ℚ)
    (life_span : Int) (study_period : Nat) (hL : 0 < life_span)
    (t : Nat) (ht : t ≤ study_period) :
    (generate_cash_flows investment revenue cost savings salvage replacement
      life_span study_period).getD t 0 =
    if t = 0 then -|investment|
    else cash_flow_at (revenue - cost + savings) salvage replacement
      life_span study_period t := by
  unfold generate_cash_flows
  rw [if_neg (not_le.mpr hL)]
  rw [List.getD_eq_getElem?_getD, List.getElem?_map, List.getElem?_range
    (Nat.lt_succ_of_le ht)]
  rfl

lemma generate_cash_flows_getD_pos (investment revenue cost savings salvage replacement : ℚ)
    (life_span : Int) (study_period : Nat) (hL : 0 < life_span)
    (t : Nat) (ht1 : 1 ≤ t) (ht : t ≤ study_period) :
    (generate_cash_flows investment revenue cost savings salvage replacement
      life_span study_period).getD t 0 =
    cash_flow_at (revenue - cost + savings) salvage replacement
      life_span study_period t := by
  rw [generate_cash_flows_getD investment revenue cost savings salvage replacement
    life_span study_period hL t ht, if_neg (by omega)]

end NpvClient

namespace NpvClient

/-- C5: For every project (any life span, including life span ≤ 0) and every
study_period ≥ 0, the series returned by `generate_cash_flows` has length
exactly study_period + 1; in particular study_period = 0 yields a length-1
series (the `study_period : Nat` argument ranges over exactly the
non-negative integers). -/
theorem C5_length_invariant (investment revenue cost savings salvage replacement : ℚ)
    (life_span : Int) (study_period : Nat) :
    (generate_cash_flows investment revenue cost savings salvage replacement
      life_span study_period).length = study_period + 1 :=
  generate_cash_flows_length investment revenue cost savings salvage replacement
    life_span study_period

/-- C8: For every project whose life span is ≤ 0 and every study_period ≥ 0,
`generate_cash_flows` returns the all-zero series of length study_period + 1
(every entry, including year 0, is 0). -/
theorem C8_nonpositive_life_all_zero
    (investment revenue cost savings salvage replacement : ℚ)
    (life_span : Int) (study_period : Nat) (hL : life_span ≤ 0) :
    generate_cash_flows investment revenue cost savings salvage replacement
      life_span study_period = List.replicate (study_period + 1) 0 ∧
    (∀ t, t ≤ study_period →
      (generate_cash_flows investment revenue cost savings salvage replacement
        life_span study_period).getD t 0 = 0) ∧
    (generate_cash_flows investment revenue cost savings salvage replacement
      life_span study_period).length = study_period + 1 := by
  have hzero : generate_cash_flows investment revenue cost savings salvage replacement
      life_span study_period = List.replicate (study_period + 1) 0 := by
    unfold generate_cash_flows
    rw [if_pos hL]
  refine ⟨hzero, ?_, ?_⟩
  · intro t _
    rw [hzero]
    rcases Nat.lt_or_ge t (study_period + 1) with h | h
    · rw [List.getD_eq_getElem?_getD, List.getElem?_replicate, if_pos h]
      rfl
    · rw [List.getD_eq_getElem?_getD, List.getElem?_replicate, if_neg (by omega)]
      rfl
  · exact generate_cash_flows_length investment revenue cost savings salvage
      replacement life_span study_period

/-- C8 witness: a concrete project with life span 0 and study period 3 yields
the all-zero series of length 4. -/
theorem C8_nonpositive_life_all_zero_witness :
    generate_cash_flows 1000 7 3 2 5 4 0 3 = List.replicate 4 0 ∧
    (∀ t, t ≤ 3 → (generate_cash_flows 1000 7 3 2 5 4 0 3).getD t 0 = 0) ∧
    (generate_cash_flows 1000 7 3 2 5 4 0 3).length = 4 :=
  C8_nonpositive_life_all_zero 1000 7 3 2 5 4 0 3 (by decide)

/-- C4: For every project (positive life span, per the data-model invariant)
and every study_period ≥ 0, entry 0 of the series equals minus the absolute
value of the investment — hence is always ≤ 0, and a negative supplied
investment is normalized to the same negative outflow. -/
theorem C4_year_zero_invariant (investment revenue cost savings salvage replacement : ℚ)
    (life_span : Int) (study_period : Nat) (hL : 0 < life_span) :
    (generate_cash_flows investment revenue cost savings salvage replacement
      life_span study_period).getD 0 0 = -|investment| ∧
    (generate_cash_flows investment revenue cost savings salvage replacement
      life_span study_period).getD 0 0 ≤ 0 := by
  have h0 : (generate_cash_flows investment revenue cost savings salvage replacement
      life_span study_period).getD 0 0 = -|investment| := by
    rw [generate_cash_flows_getD investment revenue cost savings salvage replacement
      life_span study_period hL 0 (Nat.zero_le _), if_pos rfl]
  exact ⟨h0, by rw [h0]; simp [abs_nonneg investment]⟩

/-- C4 witness: a negative supplied investment (-1000) is normalized to the
outflow -1000 ≤ 0 (life span 5, study period 5). -/
theorem C4_year_zero_invariant_witness :
    (generate_cash_flows (-1000) 20 5 0 3 8 5 5).getD 0 0 = -1000 ∧
    (generate_cash_flows (-1000) 20 5 0 3 8 5 5).getD 0 0 ≤ 0 :=
  ⟨(C4_year_zero_invariant (-1000) 20 5 0 3 8 5 5 (by decide)).1.trans (by norm_num),
   (C4_year_zero_invariant (-1000) 20 5 0 3 8 5 5 (by decide)).2⟩

/-- C1: For every project with life span L > 0 and every study_period N ≥ 1,
the series returned by `generate_cash_flows` satisfies: for each year t with
1 ≤ t ≤ N, the entry equals net_annual = revenue - operating_cost + savings,
plus salvage if t mod L = 0 (including when t = N), minus replacement if
t mod L = 0 and t ≠ N. -/
theorem C1_cycle_boundary_policy
    (investment revenue cost savings salvage replacement : ℚ)
    (life_span : Int) (study_period : Nat)
    (hL : 0 < life_span) (hN : 1 ≤ study_period)
    (t : Nat) (ht1 : 1 ≤ t) (htN : t ≤ study_period) :
    (generate_cash_flows investment revenue cost savings salvage replacement
      life_span study_period).getD t 0 =
    (revenue - cost + savings)
      + (if (t : Int) % life_span = 0 then salvage else 0)
      - (if (t : Int) % life_span = 0 ∧ t ≠ study_period then replacement else 0) := by
  rw [generate_cash_flows_getD_pos investment revenue cost savings salvage replacement
    life_span study_period hL t ht1 htN]
  unfold cash_flow_at
  rw [ite_and]
  split_ifs <;> ring

/-- C1 witness: with investment 1000, replacement 1000, life span 2, study
period 4, salvage 0 and all annual amounts 0: flows[2] = -1000 (replacement
applied at the interior boundary) and flows[4] = 0 (no replacement at the
final year). -/
theorem C1_cycle_boundary_policy_witness :
    (generate_cash_flows 1000 0 0 0 0 1000 2 4).getD 2 0 = -1000 ∧
    (generate_cash_flows 1000 0 0 0 0 1000 2 4).getD 4 0 = 0 :=
  ⟨(C1_cycle_boundary_policy 1000 0 0 0 0 1000 2 4 (by decide) (by decide) 2
      (by decide) (by decide)).trans (by norm_num),
   (C1_cycle_boundary_policy 1000 0 0 0 0 1000 2 4 (by decide) (by decide) 4
      (by decide) (by decide)).trans (by norm_num)⟩

/-- C10: For every project with life span L > study_period ≥ 1, no year in
1..study_period is a life-cycle boundary, so every entry for those years
equals exactly net_annual = revenue - operating_cost + savings: neither
salvage nor replacement is ever applied. -/
theorem C10_long_life_no_boundary
    (investment revenue cost savings salvage replacement : ℚ)
    (life_span : Int) (study_period : Nat)
    (hN : 1 ≤ study_period) (hL : (study_period : Int) < life_span)
    (t : Nat) (ht1 : 1 ≤ t) (htN : t ≤ study_period) :
    (generate_cash_flows investment revenue cost savings salvage replacement
      life_span study_period).getD t 0 = revenue - cost + savings := by
  have hLpos : 0 < life_span := by omega
  rw [generate_cash_flows_getD_pos investment revenue cost savings salvage replacement
    life_span study_period hLpos t ht1 htN]
  unfold cash_flow_at
  have htlt : (t : Int) < life_span := by
    have : (t : Int) ≤ (study_period : Int) := by exact_mod_cast htN
    omega
  have hmod : (t : Int) % life_span = t :=
    Int.emod_eq_of_lt (by exact_mod_cast Nat.zero_le t) htlt
  have hne : ¬((t : Int) % life_span = 0) := by
    rw [hmod]
    omega
  simp [hne]

/-- C10 witness: life span 5, study period 3, year 2: the entry is exactly
revenue - cost + savings = 10 - 4 + 1 = 7, untouched by salvage 100 and
replacement 200. -/
theorem C10_long_life_no_boundary_witness :
    (generate_cash_flows 1000 10 4 1 100 200 5 3).getD 2 0 = 7 :=
  (C10_long_life_no_boundary 1000 10 4 1 100 200 5 3 (by decide) (by decide) 2
    (by decide) (by decide)).trans (by norm_num)

/-! ### Lemmas about `calculate_npv` -/

lemma sum_range_getD (l : List ℚ) :
    ∑ t ∈ Finset.range l.length, l.getD t 0 = l.sum := by
  induction l with
  | nil => simp
  | cons a l ih =>
    rw [List.length_cons, Finset.sum_range_succ']
    simp only [List.getD_cons_succ, List.getD_cons_zero, List.sum_cons, ih]
    ring

/-- C2: `calculate_npv` returns the sum over t = 0..N of
flows[t] / (1 + rate_percent/100)^t; at rate 0 this is the plain sum of the
entries; and for flows = [-100, 110] at rate 10 the result is 0 (hence
within the 0.01 absolute tolerance of 0). -/
theorem C2_npv_formula (flows : List ℚ) (rate_percent : ℚ) :
    calculate_npv flows rate_percent =
      (∑ t ∈ Finset.range flows.length,
        flows.getD t 0 / (1 + rate_percent / 100) ^ t) ∧
    calculate_npv flows 0 = flows.sum ∧
    calculate_npv [-100, 110] 10 = 0 ∧
    |calculate_npv [-100, 110] 10| ≤ 1 / 100 := by
  refine ⟨rfl, ?_, ?_, ?_⟩
  · unfold calculate_npv
    simp only [zero_div, add_zero, one_pow, div_one]
    exact sum_range_getD flows
  · norm_num [calculate_npv, Finset.sum_range_succ]
  · norm_num [calculate_npv, Finset.sum_range_succ]

/-! ### Lemmas about the lcm fold in `calculate_lcm` -/

lemma foldl_lcm_dvd_acc (l : List Int) (acc : Nat) :
    acc ∣ l.foldl (fun a n => Nat.lcm a n.toNat) acc := by
  induction l generalizing acc with
  | nil => exact dvd_refl acc
  | cons x xs ih =>
    exact dvd_trans (Nat.dvd_lcm_left acc x.toNat) (ih (Nat.lcm acc x.toNat))

lemma foldl_lcm_dvd_mem (l : List Int) (acc : Nat) (n : Int) (hn : n ∈ l) :
    n.toNat ∣ l.foldl (fun a n => Nat.lcm a n.toNat) acc := by
  induction l generalizing acc with
  | nil => cases hn
  | cons x xs ih =>
    rcases List.mem_cons.mp hn with h | h
    · subst h
      exact dvd_trans (Nat.dvd_lcm_right acc n.toNat)
        (foldl_lcm_dvd_acc xs (Nat.lcm acc n.toNat))
    · exact ih (Nat.lcm acc x.toNat) h

lemma foldl_lcm_dvd_of_forall_dvd (l : List Int) (acc m : Nat)
    (hacc : acc ∣ m) (h : ∀ n ∈ l, n.toNat ∣ m) :
    l.foldl (fun a n => Nat.lcm a n.toNat) acc ∣ m := by
  induction l generalizing acc with
  | nil => exact hacc
  | cons x xs ih =>
    exact ih (Nat.lcm acc x.toNat)
      (Nat.lcm_dvd hacc (h x (List.mem_cons_self x xs)))
      (fun n hn => h n (List.mem_cons_of_mem x hn))

lemma foldl_lcm_pos (l : List Int) (acc : Nat) (hacc : 0 < acc)
    (h : ∀ n ∈ l, 0 < n) :
    0 < l.foldl (fun a n => Nat.lcm a n.toNat) acc := by
  induction l generalizing acc with
  | nil => exact hacc
  | cons x xs ih =>
    refine ih (Nat.lcm acc x.toNat)
      (Nat.lcm_pos hacc ?_) (fun n hn => h n (List.mem_cons_of_mem x hn))
    have := h x (List.mem_cons_self x xs)
    omega

lemma calculate_lcm_pos (l : List Int) (hne : l ≠ [])
    (h : ∀ n ∈ l, 0 < n) : 0 < calculate_lcm l := by
  unfold calculate_lcm
  rw [if_neg (by simpa using hne)]
  have hfilter : l.filter (fun n => 0 < n) = l :=
    List.filter_eq_self.mpr (fun n hn => by simpa using h n hn)
  rw [hfilter, if_neg (by simpa using hne)]
  exact foldl_lcm_pos l 1 Nat.one_pos h

/-- C3: `calculate_lcm` discards entries ≤ 0, returns 0 when the filtered
list is empty (including the empty input list), and otherwise returns the
least common multiple of the remaining entries: a positive integer divisible
by each of them, and no smaller than any positive integer divisible by each
of them (hence the unique smallest such). -/
theorem C3_lcm_correct (numbers : List Int) :
    (numbers.filter (fun n => 0 < n) = [] → calculate_lcm numbers = 0) ∧
    (numbers.filter (fun n => 0 < n) ≠ [] →
      0 < calculate_lcm numbers ∧
      (∀ n ∈ numbers.filter (fun n => 0 < n), n.toNat ∣ calculate_lcm numbers) ∧
      (∀ m : Nat, 0 < m → (∀ n ∈ numbers.filter (fun n => 0 < n), n.toNat ∣ m) →
        calculate_lcm numbers ≤ m)) := by
  constructor
  · intro hempty
    unfold calculate_lcm
    by_cases hnil : numbers.isEmpty
    · rw [if_pos hnil]
    · rw [if_neg hnil, if_pos (by simpa using hempty)]
  · intro hne
    have hnil : ¬numbers.isEmpty := by
      intro hcontra
      rw [List.isEmpty_iff.mp hcontra] at hne
      simp at hne
    have hval : calculate_lcm numbers =
        (numbers.filter (fun n => 0 < n)).foldl
          (fun acc n => Nat.lcm acc n.toNat) 1 := by
      unfold calculate_lcm
      rw [if_neg hnil, if_neg (by simpa using hne)]
    have hposmem : ∀ n ∈ numbers.filter (fun n => 0 < n), 0 < n := by
      intro n hn
      have := List.of_mem_filter hn
      simpa using this
    refine ⟨?_, ?_, ?_⟩
    · rw [hval]
      exact foldl_lcm_pos _ 1 Nat.one_pos hposmem
    · intro n hn
      rw [hval]
      exact foldl_lcm_dvd_mem _ 1 n hn
    · intro m hm hdvd
      rw [hval]
      exact Nat.le_of_dvd hm
        (foldl_lcm_dvd_of_forall_dvd _ 1 m (Nat.one_dvd m) hdvd)

/-- C3 witness: the concrete examples of the claim, the empty case obtained
by applying the theorem at the empty list. -/
theorem C3_lcm_correct_witness :
    calculate_lcm [3, 4] = 12 ∧ calculate_lcm [5, 5] = 5 ∧
    calculate_lcm [-1, 6] = 6 ∧ calculate_lcm [] = 0 :=
  ⟨by decide, by decide, by decide, (C3_lcm_correct []).1 (by decide)⟩

lemma calculate_npv_eq (flows : List ℚ) (marr_percent : ℚ) :
    calculate_npv flows marr_percent =
      ∑ t ∈ Finset.range flows.length,
        flows.getD t 0 / (1 + marr_percent / 100) ^ t := rfl

/-- C7: For every fixed cash flow series whose total undiscounted sum is
positive and concentrated in early years (formalised as: every entry after
year 0 is non-negative and at least one such entry is positive — the benefit
stream arrives after the year-0 outlay, as in the spec's example
[-100, 110]), `calculate_npv` is strictly decreasing in the discount rate:
for all rates r2 > r1 ≥ 0 the NPV at r2 is strictly less than at r1. -/
theorem C7_npv_strict_antitone (flows : List ℚ) (r1 r2 : ℚ)
    (hsum : 0 < flows.sum)
    (hnonneg : ∀ t, 1 ≤ t → t < flows.length → 0 ≤ flows.getD t 0)
    (hpos : ∃ t, 1 ≤ t ∧ t < flows.length ∧ 0 < flows.getD t 0)
    (hr1 : 0 ≤ r1) (hr12 : r1 < r2) :
    calculate_npv flows r2 < calculate_npv flows r1 := by
  rw [calculate_npv_eq, calculate_npv_eq]
  have ha : (0 : ℚ) < 1 + r1 / 100 := by positivity
  have hab : 1 + r1 / 100 < 1 + r2 / 100 := by
    have : r1 / 100 < r2 / 100 := by
      apply div_lt_div_of_pos_right hr12
      norm_num
    linarith
  apply Finset.sum_lt_sum
  · intro i hi
    rcases Nat.eq_zero_or_pos i with hi0 | hi1
    · subst hi0
      simp
    · have hc : 0 ≤ flows.getD i 0 := hnonneg i hi1 (Finset.mem_range.mp hi)
      exact div_le_div_of_nonneg_left hc (pow_pos ha i)
        (pow_le_pow_left₀ ha.le hab.le i)
  · obtain ⟨t, ht1, htlen, htpos⟩ := hpos
    refine ⟨t, Finset.mem_range.mpr htlen, ?_⟩
    exact div_lt_div_of_pos_left htpos (pow_pos ha t)
      (pow_lt_pow_left₀ hab ha.le (by omega))

/-- C7 witness: for the spec's flows [-100, 110] (sum 10 > 0, single
positive entry at year 1), raising the rate from 0 to 10 strictly lowers
the NPV. -/
theorem C7_npv_strict_antitone_witness :
    calculate_npv [-100, 110] 10 < calculate_npv [-100, 110] 0 :=
  C7_npv_strict_antitone [-100, 110] 0 10
    (by norm_num)
    (by
      intro t h1 h2
      simp only [List.length_cons, List.length_nil] at h2
      interval_cases t
      norm_num)
    (⟨1, by norm_num, by norm_num, by norm_num⟩)
    (by norm_num) (by norm_num)

/-! ### Lemmas about the winner selection -/

lemma pick_max_mem (b : ResultRow) (l : List ResultRow) :
    pick_max b l ∈ b :: l := by
  induction l generalizing b with
  | nil => simp [pick_max]
  | cons r rs ih =>
    simp only [pick_max]
    split
    · exact List.mem_cons_of_mem b (ih r)
    · rcases List.mem_cons.mp (ih b) with h | h
      · rw [h]
        exact List.mem_cons_self b (r :: rs)
      · exact List.mem_cons_of_mem b (List.mem_cons_of_mem r h)

lemma pick_max_le (b : ResultRow) (l : List ResultRow) :
    ∀ x ∈ b :: l, x.2 ≤ (pick_max b l).2 := by
  induction l generalizing b with
  | nil =>
    intro x hx
    rw [List.mem_singleton.mp hx]
    simp [pick_max]
  | cons r rs ih =>
    intro x hx
    simp only [pick_max]
    split
    · rename_i h
      rcases List.mem_cons.mp hx with rfl | hx2
      · exact le_of_lt (lt_of_lt_of_le h (ih r r (List.mem_cons_self r rs)))
      · exact ih r x hx2
    · rename_i h
      rcases List.mem_cons.mp hx with h1 | hx2
      · rw [h1]
        exact ih b b (List.mem_cons_self b rs)
      · rcases List.mem_cons.mp hx2 with h2 | hx3
        · rw [h2]
          exact le_trans (not_lt.mp h) (ih b b (List.mem_cons_self b rs))
        · exact ih b x (List.mem_cons_of_mem b hx3)

lemma pick_max_first (b : ResultRow) (l : List ResultRow) (d : ResultRow) :
    ∃ i, i < (b :: l).length ∧ (b :: l).getD i d = pick_max b l ∧
      ∀ j, j < i → ((b :: l).getD j d).2 < (pick_max b l).2 := by
  induction l generalizing b with
  | nil =>
    exact ⟨0, by simp, by simp [pick_max], fun j hj => absurd hj (Nat.not_lt_zero j)⟩
  | cons r rs ih =>
    by_cases h : b.2 < r.2
    · obtain ⟨i, hlen, hget, hfirst⟩ := ih r
      refine ⟨i + 1, by simpa using hlen, ?_, ?_⟩
      · simp only [pick_max, if_pos h]
        simpa [List.getD_cons_succ] using hget
      · intro j hj
        simp only [pick_max, if_pos h]
        match j with
        | 0 =>
          simp only [List.getD_cons_zero]
          exact lt_of_lt_of_le h (pick_max_le r rs r (List.mem_cons_self r rs))
        | j + 1 =>
          have : j < i := by omega
          simpa [List.getD_cons_succ] using hfirst j this
    · obtain ⟨i, hlen, hget, hfirst⟩ := ih b
      match i, hlen, hget, hfirst with
      | 0, _, hget, _ =>
        refine ⟨0, by simp, ?_, fun j hj => absurd hj (Nat.not_lt_zero j)⟩
        simp only [pick_max, if_neg h]
        simpa using hget
      | i + 1, hlen, hget, hfirst =>
        have hb : b.2 < (pick_max b rs).2 := by
          simpa using hfirst 0 (Nat.succ_pos i)
        refine ⟨i + 2, ?_, ?_, ?_⟩
        · simp only [List.length_cons] at hlen ⊢
          omega
        · simp only [pick_max, if_neg h]
          simpa [List.getD_cons_succ] using hget
        · intro j hj
          simp only [pick_max, if_neg h]
          match j with
          | 0 =>
            simpa using hb
          | 1 =>
            simp only [List.getD_cons_succ, List.getD_cons_zero]
            exact lt_of_le_of_lt (not_lt.mp h) hb
          | j + 2 =>
            have : j + 1 < i + 1 := by omega
            simpa [List.getD_cons_succ] using hfirst (j + 1) this

/-- C9: When two or more rows attain the same maximal NPV, the selection
procedure returns the first-listed such row: the winner sits at an index i,
is an upper bound for the whole NPV column, and every row before index i has
NPV strictly below the winner's — so i is the earliest index attaining the
maximum. -/
theorem C9_tie_first_listed (results : List ResultRow) (h : results ≠ []) :
    ∃ w i, select_winner results = some w ∧ i < results.length ∧
      results.getD i ("", 0) = w ∧
      (∀ j, j < results.length → (results.getD j ("", 0)).2 ≤ w.2) ∧
      (∀ j, j < i → (results.getD j ("", 0)).2 < w.2) := by
  match results with
  | [] => exact absurd rfl h
  | r :: rs =>
    obtain ⟨i, hlen, hget, hfirst⟩ := pick_max_first r rs ("", 0)
    refine ⟨pick_max r rs, i, rfl, hlen, hget, ?_, hfirst⟩
    intro j hj
    have hmem : (r :: rs).getD j ("", 0) ∈ r :: rs := by
      rw [List.getD_eq_getElem (r :: rs) ("", 0) hj]
      exact List.getElem_mem hj
    exact pick_max_le r rs _ hmem

/-- C9 witness: for the concrete tie [("A", 5), ("B", 5)] the first-listed
row ("A", 5) wins, and the theorem's index bound instantiates there. -/
theorem C9_tie_first_listed_witness :
    select_winner [("A", (5 : ℚ)), ("B", 5)] = some ("A", 5) ∧
    (∃ w i, select_winner [("A", (5 : ℚ)), ("B", 5)] = some w ∧
      i < ([("A", (5 : ℚ)), ("B", 5)] : List ResultRow).length ∧
      ([("A", (5 : ℚ)), ("B", 5)] : List ResultRow).getD i ("", 0) = w ∧
      (∀ j, j < ([("A", (5 : ℚ)), ("B", 5)] : List ResultRow).length →
        (([("A", (5 : ℚ)), ("B", 5)] : List ResultRow).getD j ("", 0)).2 ≤ w.2) ∧
      (∀ j, j < i →
        (([("A", (5 : ℚ)), ("B", 5)] : List ResultRow).getD j ("", 0)).2 < w.2)) :=
  ⟨by norm_num [select_winner, pick_max],
   C9_tie_first_listed [("A", (5 : ℚ)), ("B", 5)] (by simp)⟩

lemma select_winner_pair (a b : String) (v1 v2 : ℚ) (res : List ResultRow)
    (heq : res = [(a, v1), (b, v2)]) (hv : v1 < v2) :
    select_winner res = some (b, v2) := by
  subst heq
  simp [select_winner, pick_max, hv]

/-- C6: For every non-empty collection of evaluated projects (at least one
supplied project has a positive life span), `run_full_analysis` returns a
winner that belongs to the computed results and whose NPV is maximal among
them; moreover, whenever the results are exactly two rows with NPVs
v1 < v2, the winner is the row carrying v2. -/
theorem C6_winner_has_max_npv (project_list : List Project) (marr : ℚ)
    (h : project_list.filter (fun p => 0 < p.life_span) ≠ []) :
    ∃ w, (run_full_analysis project_list marr).2.2 = some w ∧
      w ∈ (run_full_analysis project_list marr).2.1 ∧
      (∀ r ∈ (run_full_analysis project_list marr).2.1, r.2 ≤ w.2) ∧
      (∀ a b v1 v2, (run_full_analysis project_list marr).2.1 = [(a, v1), (b, v2)] →
        v1 < v2 → (run_full_analysis project_list marr).2.2 = some (b, v2)) := by
  have hne : ¬project_list.isEmpty = true := by
    intro hc
    rw [List.isEmpty_iff.mp hc] at h
    simp at h
  have hdf : ¬(project_list.filter (fun p => 0 < p.life_span)).isEmpty = true := by
    simpa [List.isEmpty_iff] using h
  have hlcm : ¬calculate_lcm
      ((project_list.filter (fun p => 0 < p.life_span)).map (fun p => p.life_span)) = 0 := by
    refine (calculate_lcm_pos _ ?_ ?_).ne'
    · intro hc
      exact h (List.map_eq_nil_iff.mp hc)
    · intro n hn
      obtain ⟨p, hp, hpe⟩ := List.mem_map.mp hn
      have h2 := (List.mem_filter.mp hp).2
      rw [← hpe]
      simpa using h2
  obtain ⟨q, qs, hcons⟩ := List.exists_cons_of_ne_nil h
  simp only [run_full_analysis]
  rw [if_neg hne, if_neg hdf, if_neg hlcm]
  rw [hcons, List.map_cons]
  refine ⟨_, rfl, pick_max_mem _ _, fun r hr => pick_max_le _ _ r hr, ?_⟩
  intro a b v1 v2 heq hv
  exact select_winner_pair a b v1 v2 _ heq hv

/-- C6 witness: two concrete one-year projects evaluated at rate 0 produce
NPVs 0 < 100, and the analysis selects the project with NPV 100. -/
theorem C6_winner_has_max_npv_witness :
    (run_full_analysis [⟨"A", 1, 0, 0, 0, 0, 0, 0⟩, ⟨"B", 1, 0, 0, 100, 0, 0, 0⟩] 0).2.2 =
      some ("B", 100) ∧
    (∃ w, (run_full_analysis [⟨"A", 1, 0, 0, 0, 0, 0, 0⟩, ⟨"B", 1, 0, 0, 100, 0, 0, 0⟩] 0).2.2 =
        some w ∧
      w ∈ (run_full_analysis [⟨"A", 1, 0, 0, 0, 0, 0, 0⟩, ⟨"B", 1, 0, 0, 100, 0, 0, 0⟩] 0).2.1 ∧
      (∀ r ∈ (run_full_analysis [⟨"A", 1, 0, 0, 0, 0, 0, 0⟩, ⟨"B", 1, 0, 0, 100, 0, 0, 0⟩] 0).2.1,
        r.2 ≤ w.2) ∧
      (∀ a b v1 v2,
        (run_full_analysis [⟨"A", 1, 0, 0, 0, 0, 0, 0⟩, ⟨"B", 1, 0, 0, 100, 0, 0, 0⟩] 0).2.1 =
          [(a, v1), (b, v2)] →
        v1 < v2 →
        (run_full_analysis [⟨"A", 1, 0, 0, 0, 0, 0, 0⟩, ⟨"B", 1, 0, 0, 100, 0, 0, 0⟩] 0).2.2 =
          some (b, v2))) :=
  ⟨by
    norm_num [run_full_analysis, calculate_lcm, calculate_npv, generate_cash_flows,
      cash_flow_at, select_winner, pick_max, List.filter, Finset.sum_range_succ,
      List.range_succ]
    simp,
   C6_winner_has_max_npv [⟨"A", 1, 0, 0, 0, 0, 0, 0⟩, ⟨"B", 1, 0, 0, 100, 0, 0, 0⟩] 0
     (by simp [List.filter])⟩

end NpvClient
